import Mathlib

/-!
# Verification of Sequence.h (local fixed storage, FRONT/MIDDLE/BACK managers)

Shallow embedding of the sequence container from `Sequence.h`:
the storage specialization `sequence_storage<false, false, T, SIZE, CAP>`
(local, fixed capacity) together with the three
`sequence_management<LOC, ...>` element-location specializations
(`FRONT`, `MIDDLE`, `BACK`) and the `sequence` facade built on them.

Memory is modelled as a map from slot index to `Option` of the element type:
`none` is an uninitialized slot, `some v` a live element.  Machine pointers
`capacity_start() + k` become plain slot indices `k` (`capacity_start` is
index `0`, `capacity_end` is index `cap`).  `reallocate()` for this storage
specialization unconditionally throws `std::bad_alloc`; the exception is
modelled with `Except`, and the error value carries the state as it was at
the throw point, so that theorems can talk about what a failed call left
behind.  A ghost `log` field records every call of the storage primitives
`reallocate` / `shift` / `add` in program order; no definition ever reads it.
-/

/-- The three values of `sequence_lits` that select a
`sequence_management` specialization (`location` trait). -/
inductive Loc where
  | FRONT
  | MIDDLE
  | BACK
deriving DecidableEq

/-- Ghost trace entries: one per call of a storage primitive, in program
order.  `realloc` is a call of `reallocate()`, `shifted beg e dist` a call
of `shift(beg, e, dist)`, `added v` a call of `add(p, v)`. -/
inductive Event (α : Type) where
  | realloc : Event α
  | shifted (beg e : Nat) (dist : Int) : Event α
  | added (v : α) : Event α
deriving DecidableEq

/-- The single error kind: `std::bad_alloc` thrown by `reallocate()`. -/
inductive PushError where
  | badAlloc
deriving DecidableEq

/-- State of a `sequence` with local fixed storage
(`sequence_storage<false,false,T,SIZE,CAP>`): the capacity `CAP`, the raw
slots (`m_storage i = none` means slot `i` is uninitialized), the live
count `m_size`, and the `MIDDLE` manager's member `m_offset` (unused by
`FRONT`/`BACK`).  `log` is the ghost call trace. -/
structure SeqState (α : Type) where
  cap : Nat
  m_storage : Nat → Option α
  m_size : Nat
  m_offset : Nat
  log : List (Event α)

variable {α : Type}

/-- Pointwise update of the slot map (one placement-construction or
destruction at slot `i`). -/
def upd (f : Nat → Option α) (i : Nat) (v : Option α) : Nat → Option α :=
  fun j => if j = i then v else f j

/-- `sequence_storage::add(p, e)`: placement-construct a copy of `e` at
slot `p` and increment `m_size`.  (The source asserts
`size() < capacity()`; every call site establishes it.) -/
def add (s : SeqState α) (p : Nat) (e : α) : SeqState α :=
  { s with
    m_storage := upd s.m_storage p (some e)
    m_size := s.m_size + 1
    log := s.log ++ [Event.added e] }

/-- The `dist > 0` loop of `sequence_storage::shift`, iteration count `n`
(`= end - beg`).  Each iteration executes
`new(dst) value_type(*--end); end->~value_type();` and then `--dst`:
it copies the slot `e - 1` to slot `dst`, destroys slot `e - 1`, and
recurses with `e - 1` and `dst - 1`.  Note the first destination is
`dst = end + dist` itself (the `--dst` of the C++ `for` loop runs only
after the body), so each element lands `dist + 1` slots higher. -/
def shiftPosLoop : Nat → (Nat → Option α) → Nat → Nat → (Nat → Option α)
  | 0, f, _, _ => f
  | n + 1, f, e, dst =>
      shiftPosLoop n (upd (upd f dst (f (e - 1))) (e - 1) none) (e - 1) (dst - 1)

/-- The `dist < 0` loop of `sequence_storage::shift`, iteration count `n`
(`= end - beg`).  Each iteration executes
`new(dst) value_type(*beg); beg->~value_type();` and then `++dst, ++beg`:
it copies slot `beg` to slot `dst`, destroys slot `beg`, and recurses with
`beg + 1` and `dst + 1`. -/
def shiftNegLoop : Nat → (Nat → Option α) → Nat → Nat → (Nat → Option α)
  | 0, f, _, _ => f
  | n + 1, f, beg, dst =>
      shiftNegLoop n (upd (upd f dst (f beg)) beg none) (beg + 1) (dst + 1)

/-- `sequence_storage::shift(beg, e, dist)`: relocate the live range
`[beg, e)` by `dist` slots.  For `dist > 0` the C++ loop starts writing at
`e + dist` (see `shiftPosLoop`); for `dist < 0` the first destination is
`beg + dist` (in every call site `beg + dist ≥ 0`, so the truncating `Nat`
subtraction below is exact); for `dist = 0` both loops run zero times. -/
def shift (s : SeqState α) (beg e : Nat) (dist : Int) : SeqState α :=
  if 0 < dist then
    { s with
      m_storage := shiftPosLoop (e - beg) s.m_storage e (e + dist.toNat)
      log := s.log ++ [Event.shifted beg e dist] }
  else if dist < 0 then
    { s with
      m_storage := shiftNegLoop (e - beg) s.m_storage beg (beg - (-dist).toNat)
      log := s.log ++ [Event.shifted beg e dist] }
  else { s with log := s.log ++ [Event.shifted beg e dist] }

/-- `sequence_storage<false,false,...>::reallocate()`: unconditionally
`throw std::bad_alloc()`.  The error carries the state at the throw point
(nothing but the ghost log has changed). -/
def reallocate (s : SeqState α) : Except (PushError × SeqState α) (SeqState α) :=
  .error (.badAlloc, { s with log := s.log ++ [Event.realloc] })

/-- `data_start()` of the three `sequence_management` specializations:
`FRONT`: `capacity_start()`; `MIDDLE`: `capacity_start() + m_offset`;
`BACK`: `capacity_end() - size()`. -/
def data_start (loc : Loc) (s : SeqState α) : Nat :=
  match loc with
  | .FRONT => 0
  | .MIDDLE => s.m_offset
  | .BACK => s.cap - s.m_size

/-- `data_end()` of the three specializations: `FRONT`:
`capacity_start() + size()`; `MIDDLE`: `capacity_start() + m_offset + size()`;
`BACK`: `capacity_end()`. -/
def data_end (loc : Loc) (s : SeqState α) : Nat :=
  match loc with
  | .FRONT => s.m_size
  | .MIDDLE => s.m_offset + s.m_size
  | .BACK => s.cap

/-- `sequence_management<MIDDLE>::back_gap()`:
`capacity() - (m_offset + size())`. -/
def back_gap (s : SeqState α) : Nat :=
  s.cap - (s.m_offset + s.m_size)

/-- `push_front` of the three specializations.  Each begins with
`if (size() == capacity()) reallocate();`; for this storage specialization
`reallocate()` never returns normally (it always throws), so the remainder
of the body runs exactly when `size() ≠ capacity()`.
`FRONT`: `shift(data_start(), data_end(), 1); add(data_start(), e)`.
`MIDDLE`: if `m_offset == 0`, recenter with
`offset = (capacity() - size()) / 2u; shift(data_start(), data_end(), offset);
m_offset = offset`, else `--m_offset`; then `add(data_start(), e)`.
`BACK`: `add(data_start() - 1, e)`. -/
def push_front (loc : Loc) (s : SeqState α) (e : α) :
    Except (PushError × SeqState α) (SeqState α) :=
  match loc with
  | .FRONT =>
      if s.m_size = s.cap then reallocate s
      else
        let s1 := shift s (data_start .FRONT s) (data_end .FRONT s) 1
        .ok (add s1 (data_start .FRONT s1) e)
  | .MIDDLE =>
      if s.m_size = s.cap then reallocate s
      else
        if s.m_offset = 0 then
          let offset := (s.cap - s.m_size) / 2
          let s1 := shift s (data_start .MIDDLE s) (data_end .MIDDLE s) (offset : Int)
          let s2 := { s1 with m_offset := offset }
          .ok (add s2 (data_start .MIDDLE s2) e)
        else
          let s1 := { s with m_offset := s.m_offset - 1 }
          .ok (add s1 (data_start .MIDDLE s1) e)
  | .BACK =>
      if s.m_size = s.cap then reallocate s
      else .ok (add s (data_start .BACK s - 1) e)

/-- `push_back` of the three specializations, with the same
`if (size() == capacity()) reallocate();` prefix.
`FRONT`: `add(data_end(), e)`.
`MIDDLE`: if `back_gap() == 0`, recenter with `offset = m_offset / 2;
shift(data_start(), data_end(), -ptrdiff_t(m_offset - offset));
m_offset = offset`; then `add(data_end(), e)`.
`BACK`: `shift(data_start(), data_end(), -1); add(data_end() - 1, e)`. -/
def push_back (loc : Loc) (s : SeqState α) (e : α) :
    Except (PushError × SeqState α) (SeqState α) :=
  match loc with
  | .FRONT =>
      if s.m_size = s.cap then reallocate s
      else .ok (add s (data_end .FRONT s) e)
  | .MIDDLE =>
      if s.m_size = s.cap then reallocate s
      else
        if back_gap s = 0 then
          let offset := s.m_offset / 2
          let s1 := shift s (data_start .MIDDLE s) (data_end .MIDDLE s)
            (-((s.m_offset - offset : Nat) : Int))
          let s2 := { s1 with m_offset := offset }
          .ok (add s2 (data_end .MIDDLE s2) e)
        else .ok (add s (data_end .MIDDLE s) e)
  | .BACK =>
      if s.m_size = s.cap then reallocate s
      else
        let s1 := shift s (data_start .BACK s) (data_end .BACK s) (-1)
        .ok (add s1 (data_end .BACK s1 - 1) e)

/-- Selector over the two push operations, for claims that quantify over
both `push_front` and `push_back`. -/
inductive Op where
  | front
  | back
deriving DecidableEq

/-- `push .front = push_front`, `push .back = push_back`. -/
def push (op : Op) (loc : Loc) (s : SeqState α) (e : α) :
    Except (PushError × SeqState α) (SeqState α) :=
  match op with
  | .front => push_front loc s e
  | .back => push_back loc s e

/-- A default-constructed `sequence` with local fixed capacity `c`:
`m_size = 0`, every slot uninitialized, and `m_offset = CAP / 2`
(the member initializer of `sequence_management<MIDDLE>`). -/
def initState (α : Type) (c : Nat) : SeqState α :=
  { cap := c
    m_storage := fun _ => none
    m_size := 0
    m_offset := c / 2
    log := [] }

/-- Run a chain of pushes, stopping at the first failure (the C++ caller
would see the exception). -/
def pushAll (p : SeqState α → α → Except (PushError × SeqState α) (SeqState α)) :
    SeqState α → List α → Except (PushError × SeqState α) (SeqState α)
  | s, [] => .ok s
  | s, v :: vs =>
      match p s v with
      | .ok s1 => pushAll p s1 vs
      | .error err => .error err

/-- What iterating from `begin()` to `end()` reads: the slots
`[data_start, data_end)` in order (`begin()`/`end()` of the facade return
`data_start()`/`data_end()`). -/
def window (loc : Loc) (s : SeqState α) : List (Option α) :=
  (List.range (data_end loc s - data_start loc s)).map
    fun i => s.m_storage (data_start loc s + i)

/-- The slots on which `~sequence()` runs the element destructor: its loop
runs `next` from `data_start()` to `data_end()` and destroys each slot. -/
def destroyedSlots (loc : Loc) (s : SeqState α) : List Nat :=
  (List.range (data_end loc s - data_start loc s)).map
    fun i => data_start loc s + i

/-- The ghost-log entries appended by one call, relative to the pre-call
state `s` (both a normal return and a throw carry the post-call log). -/
def newLog (s : SeqState α) (r : Except (PushError × SeqState α) (SeqState α)) :
    List (Event α) :=
  match r with
  | .ok s1 => s1.log.drop s.log.length
  | .error (_, s1) => s1.log.drop s.log.length

/-- Recognizer for `add` calls in the ghost log. -/
def isAdd : Event α → Bool
  | .added _ => true
  | _ => false

/-- View of a failed run: the error kind together with the iteration
window and size of the state left behind at the throw point. -/
def failureView (loc : Loc) :
    Except (PushError × SeqState α) (SeqState α) →
      Option (PushError × List (Option α) × Nat)
  | .error (k, s) => some (k, window loc s, s.m_size)
  | .ok _ => none

/-- The states of a given location variant reachable from a
default-constructed container by successful pushes. -/
inductive Reaches (loc : Loc) : SeqState α → Prop where
  | init (c : Nat) : Reaches loc (initState α c)
  | step (op : Op) (s s1 : SeqState α) (v : α) :
      Reaches loc s → push op loc s v = .ok s1 → Reaches loc s1

/-! ## Basic facts about the storage primitives -/

lemma shift_m_size (s : SeqState α) (b e : Nat) (d : Int) :
    (shift s b e d).m_size = s.m_size := by
  unfold shift; split_ifs <;> rfl

lemma shift_cap (s : SeqState α) (b e : Nat) (d : Int) :
    (shift s b e d).cap = s.cap := by
  unfold shift; split_ifs <;> rfl

lemma shift_m_offset (s : SeqState α) (b e : Nat) (d : Int) :
    (shift s b e d).m_offset = s.m_offset := by
  unfold shift; split_ifs <;> rfl

lemma shift_log (s : SeqState α) (b e : Nat) (d : Int) :
    (shift s b e d).log = s.log ++ [Event.shifted b e d] := by
  unfold shift; split_ifs <;> rfl

/-- When `size() == capacity()`, every push of every variant calls
`reallocate()` first, which throws at once: the call fails with
`bad_alloc` and the state at the throw point is the entry state
(only the ghost log records the `reallocate` call). -/
lemma push_full (op : Op) (loc : Loc) (s : SeqState α) (v : α)
    (h : s.m_size = s.cap) :
    push op loc s v =
      .error (.badAlloc, { s with log := s.log ++ [Event.realloc] }) := by
  cases op <;> cases loc <;> simp [push, push_front, push_back, reallocate, h]

/-- Helper for computing the ghost-log delta of a successful call. -/
lemma newLog_ok (s x : SeqState α)
    (r : Except (PushError × SeqState α) (SeqState α)) (t : List (Event α))
    (hr : r = .ok x) (hl : x.log = s.log ++ t) : newLog s r = t := by
  subst hr; simp [newLog, hl, List.drop_left]

/-- When `size() ≠ capacity()`, every push of every variant returns
normally; the new size is one larger, the capacity is untouched, the call
performed exactly one `add` (and it constructed the pushed value), and
`reallocate` was never invoked. -/
lemma push_not_full (op : Op) (loc : Loc) (s : SeqState α) (v : α)
    (h : s.m_size ≠ s.cap) :
    ∃ s1, push op loc s v = .ok s1 ∧ s1.m_size = s.m_size + 1 ∧
      s1.cap = s.cap ∧
      (newLog s (push op loc s v)).filter isAdd = [Event.added v] ∧
      Event.realloc ∉ newLog s (push op loc s v) := by
  cases op <;> cases loc
  case front.FRONT =>
    cases hp : push Op.front Loc.FRONT s v with
    | error err => simp [push, push_front, if_neg h] at hp
    | ok s1 =>
        have hp2 := hp
        simp only [push, push_front, if_neg h, Except.ok.injEq] at hp2
        subst hp2
        exact ⟨_, rfl, by simp [add, shift_m_size], by simp [add, shift_cap],
          by simp [newLog, add, shift_log, List.drop_left, isAdd],
          by simp [newLog, add, shift_log, List.drop_left]⟩
  case front.MIDDLE =>
    by_cases h0 : s.m_offset = 0
    · cases hp : push Op.front Loc.MIDDLE s v with
      | error err => simp [push, push_front, if_neg h, h0] at hp
      | ok s1 =>
          have hp2 := hp
          simp only [push, push_front, if_neg h, h0, reduceIte,
            Except.ok.injEq] at hp2
          subst hp2
          exact ⟨_, rfl, by simp [add, shift_m_size], by simp [add, shift_cap],
            by simp [newLog, add, shift_log, List.drop_left, isAdd],
            by simp [newLog, add, shift_log, List.drop_left]⟩
    · cases hp : push Op.front Loc.MIDDLE s v with
      | error err => simp [push, push_front, if_neg h, h0] at hp
      | ok s1 =>
          have hp2 := hp
          simp only [push, push_front, if_neg h, if_neg h0,
            Except.ok.injEq] at hp2
          subst hp2
          exact ⟨_, rfl, by simp [add], by simp [add],
            by simp [newLog, add, List.drop_left, isAdd],
            by simp [newLog, add, List.drop_left]⟩
  case front.BACK =>
    cases hp : push Op.front Loc.BACK s v with
    | error err => simp [push, push_front, if_neg h] at hp
    | ok s1 =>
        have hp2 := hp
        simp only [push, push_front, if_neg h, Except.ok.injEq] at hp2
        subst hp2
        exact ⟨_, rfl, by simp [add], by simp [add],
          by simp [newLog, add, List.drop_left, isAdd],
          by simp [newLog, add, List.drop_left]⟩
  case back.FRONT =>
    cases hp : push Op.back Loc.FRONT s v with
    | error err => simp [push, push_back, if_neg h] at hp
    | ok s1 =>
        have hp2 := hp
        simp only [push, push_back, if_neg h, Except.ok.injEq] at hp2
        subst hp2
        exact ⟨_, rfl, by simp [add], by simp [add],
          by simp [newLog, add, List.drop_left, isAdd],
          by simp [newLog, add, List.drop_left]⟩
  case back.MIDDLE =>
    by_cases h0 : back_gap s = 0
    · cases hp : push Op.back Loc.MIDDLE s v with
      | error err => simp [push, push_back, if_neg h, h0] at hp
      | ok s1 =>
          have hp2 := hp
          simp only [push, push_back, if_neg h, h0, reduceIte,
            Except.ok.injEq] at hp2
          subst hp2
          exact ⟨_, rfl, by simp [add, shift_m_size], by simp [add, shift_cap],
            by simp [newLog, add, shift_log, List.drop_left, isAdd],
            by simp [newLog, add, shift_log, List.drop_left]⟩
    · cases hp : push Op.back Loc.MIDDLE s v with
      | error err => simp [push, push_back, if_neg h, h0] at hp
      | ok s1 =>
          have hp2 := hp
          simp only [push, push_back, if_neg h, if_neg h0,
            Except.ok.injEq] at hp2
          subst hp2
          exact ⟨_, rfl, by simp [add], by simp [add],
            by simp [newLog, add, List.drop_left, isAdd],
            by simp [newLog, add, List.drop_left]⟩
  case back.BACK =>
    cases hp : push Op.back Loc.BACK s v with
    | error err => simp [push, push_back, if_neg h] at hp
    | ok s1 =>
        have hp2 := hp
        simp only [push, push_back, if_neg h, Except.ok.injEq] at hp2
        subst hp2
        exact ⟨_, rfl, by simp [add, shift_m_size], by simp [add, shift_cap],
          by simp [newLog, add, shift_log, List.drop_left, isAdd],
          by simp [newLog, add, shift_log, List.drop_left]⟩

/-- Net effect of the `dist < 0` loop: with destination start `dst < beg`,
slot `x` ends up holding the element copied from `beg + (x - dst)` if `x`
is among the `n` destination slots, is destroyed if it is among the `n`
source slots (and not a destination), and is untouched otherwise. -/
lemma shiftNegLoop_apply (n : Nat) (f : Nat → Option α) (beg dst x : Nat)
    (h : dst < beg) :
    shiftNegLoop n f beg dst x =
      if dst ≤ x ∧ x < dst + n then f (beg + (x - dst))
      else if beg ≤ x ∧ x < beg + n then none
      else f x := by
  induction n generalizing f beg dst with
  | zero =>
      simp only [shiftNegLoop]
      have h1 : ¬(dst ≤ x ∧ x < dst + 0) := by omega
      have h2 : ¬(beg ≤ x ∧ x < beg + 0) := by omega
      rw [if_neg h1, if_neg h2]
  | succ n ih =>
      simp only [shiftNegLoop]
      rw [ih _ _ _ (by omega)]
      simp only [upd]
      split_ifs <;>
        first
        | rfl
        | omega
        | (exfalso; omega)
        | (apply congrArg; omega)

/-- Every reachable state keeps `size() ≤ capacity()` and never changes
the capacity (it is the fixed template parameter `CAP`). -/
lemma reaches_size_le_cap (loc : Loc) (s : SeqState α) (h : Reaches loc s) :
    s.m_size ≤ s.cap := by
  induction h with
  | init c => simp [initState]
  | step op s s1 v hr hp ih =>
      by_cases hc : s.m_size = s.cap
      · rw [push_full op loc s v hc] at hp
        simp at hp
      · obtain ⟨s2, hp2, h1, h2, -, -⟩ := push_not_full op loc s v hc
        rw [hp2] at hp
        obtain rfl : s2 = s1 := by injection hp
        omega

/-- The `MIDDLE` invariant on reachable states:
`m_offset + size() ≤ capacity()`. -/
lemma reaches_mid_inv (s : SeqState α) (h : Reaches Loc.MIDDLE s) :
    s.m_offset + s.m_size ≤ s.cap := by
  induction h with
  | init c =>
      simp only [initState]
      omega
  | step op s s1 v hr hp ih =>
      by_cases hc : s.m_size = s.cap
      · rw [push_full op _ s v hc] at hp
        simp at hp
      · cases op with
        | front =>
            by_cases h0 : s.m_offset = 0
            · simp only [push, push_front, if_neg hc, h0, reduceIte,
                Except.ok.injEq] at hp
              subst hp
              simp only [add, shift_m_size, shift_cap, shift_m_offset]
              omega
            · simp only [push, push_front, if_neg hc, if_neg h0,
                Except.ok.injEq] at hp
              subst hp
              simp only [add]
              omega
        | back =>
            by_cases h0 : back_gap s = 0
            · have h0' : s.cap - (s.m_offset + s.m_size) = 0 := h0
              simp only [push, push_back, if_neg hc, h0, reduceIte,
                Except.ok.injEq] at hp
              subst hp
              simp only [add, shift_m_size, shift_cap, shift_m_offset]
              omega
            · have h0' : s.cap - (s.m_offset + s.m_size) ≠ 0 := h0
              simp only [push, push_back, if_neg hc, if_neg h0,
                Except.ok.injEq] at hp
              subst hp
              simp only [add]
              omega

/-- Invariant tying a state to the list of values pushed so far via
`push_back`: the live count equals the number of pushes, it fits the
capacity, for `MIDDLE` the window also fits after the offset, and slot
`data_start + i` holds the `i`-th pushed value. -/
structure PushedInv (loc : Loc) (vs : List α) (s : SeqState α) : Prop where
  size_eq : s.m_size = vs.length
  size_le : s.m_size ≤ s.cap
  mid_le : loc = .MIDDLE → s.m_offset + s.m_size ≤ s.cap
  slots : ∀ i, i < vs.length → s.m_storage (data_start loc s + i) = vs[i]?

/-- One successful `push_back` extends the invariant by the pushed value. -/
lemma push_back_step (loc : Loc) (acc : List α) (s s1 : SeqState α) (v : α)
    (hInv : PushedInv loc acc s) (hp : push_back loc s v = .ok s1) :
    PushedInv loc (acc ++ [v]) s1 ∧ s1.cap = s.cap := by
  obtain ⟨hsz, hle, hmid, hslot⟩ := hInv
  have hc : s.m_size ≠ s.cap := by
    intro hc
    have h2 : push_back loc s v =
        .error (.badAlloc, { s with log := s.log ++ [Event.realloc] }) :=
      push_full Op.back loc s v hc
    rw [hp] at h2
    simp at h2
  have hlt : s.m_size < s.cap := by omega
  cases loc with
  | FRONT =>
      simp only [push_back, if_neg hc, Except.ok.injEq] at hp
      subst hp
      refine ⟨⟨?_, ?_, ?_, ?_⟩, rfl⟩
      · simp [add, hsz]
      · simp only [add]
        omega
      · intro hx; cases hx
      · intro i hi
        simp only [List.length_append, List.length_cons, List.length_nil] at hi
        simp only [add, data_start, upd, data_end, Nat.zero_add]
        by_cases hi2 : i < acc.length
        · rw [if_neg (by omega), List.getElem?_append, if_pos hi2]
          have := hslot i hi2
          simpa [data_start] using this
        · have hieq : i = acc.length := by omega
          subst hieq
          rw [if_pos (by omega), List.getElem?_concat_length]
  | BACK =>
      simp only [push_back, if_neg hc, data_start, data_end,
        Except.ok.injEq] at hp
      subst hp
      have hX : ∀ x, (shift s (s.cap - s.m_size) s.cap (-1)).m_storage x =
          if s.cap - s.m_size - 1 ≤ x ∧ x < s.cap - s.m_size - 1 + s.m_size then
            s.m_storage (s.cap - s.m_size + (x - (s.cap - s.m_size - 1)))
          else if s.cap - s.m_size ≤ x ∧ x < s.cap - s.m_size + s.m_size then
            none
          else s.m_storage x := by
        intro x
        simp only [shift]
        rw [if_neg (by decide), if_pos (by decide)]
        have he : s.cap - (s.cap - s.m_size) = s.m_size := by omega
        rw [he, show ((-(-1 : Int)).toNat) = 1 from rfl]
        exact shiftNegLoop_apply s.m_size s.m_storage (s.cap - s.m_size)
          (s.cap - s.m_size - 1) x (by omega)
      refine ⟨⟨?_, ?_, ?_, ?_⟩, by simp [add, shift_cap]⟩
      · simp [add, shift_m_size, hsz]
      · simp only [add, shift_m_size, shift_cap]
        omega
      · intro hx; cases hx
      · intro i hi
        simp only [List.length_append, List.length_cons, List.length_nil] at hi
        simp only [add, data_start, data_end, upd, shift_m_size, shift_cap]
        by_cases hi2 : i < acc.length
        · rw [if_neg (by omega)]
          rw [hX]
          rw [if_pos (by omega)]
          rw [List.getElem?_append, if_pos hi2]
          have := hslot i hi2
          simp only [data_start] at this
          rw [show s.cap - s.m_size +
              (s.cap - (s.m_size + 1) + i - (s.cap - s.m_size - 1)) =
              s.cap - s.m_size + i by omega]
          exact this
        · have hieq : i = acc.length := by omega
          subst hieq
          rw [if_pos (by omega), List.getElem?_concat_length]
  | MIDDLE =>
      have hmid2 : s.m_offset + s.m_size ≤ s.cap := hmid rfl
      by_cases h0 : back_gap s = 0
      · have h0' : s.cap - (s.m_offset + s.m_size) = 0 := h0
        have hoff : 1 ≤ s.m_offset := by omega
        simp only [push_back, if_neg hc, h0, reduceIte, data_start, data_end,
          Except.ok.injEq] at hp
        subst hp
        have hX : ∀ x, (shift s s.m_offset (s.m_offset + s.m_size)
            (-((s.m_offset - s.m_offset / 2 : Nat) : Int))).m_storage x =
            if s.m_offset / 2 ≤ x ∧ x < s.m_offset / 2 + s.m_size then
              s.m_storage (s.m_offset + (x - s.m_offset / 2))
            else if s.m_offset ≤ x ∧ x < s.m_offset + s.m_size then
              none
            else s.m_storage x := by
          intro x
          simp only [shift]
          rw [if_neg (by omega), if_pos (by omega)]
          have he : s.m_offset + s.m_size - s.m_offset = s.m_size := by omega
          have hd : s.m_offset - ((-(-((s.m_offset - s.m_offset / 2 : Nat) :
              Int))).toNat) = s.m_offset / 2 := by
            rw [Int.neg_neg, Int.toNat_natCast]
            omega
          rw [he, hd]
          exact shiftNegLoop_apply s.m_size s.m_storage s.m_offset
            (s.m_offset / 2) x (by omega)
        refine ⟨⟨?_, ?_, ?_, ?_⟩, by simp [add, shift_cap]⟩
        · simp [add, shift_m_size, hsz]
        · simp only [add, shift_m_size, shift_cap]
          omega
        · intro _
          simp only [add, shift_m_size, shift_cap]
          omega
        · intro i hi
          simp only [List.length_append, List.length_cons, List.length_nil] at hi
          simp only [add, data_start, data_end, upd, shift_m_size, shift_cap,
            shift_m_offset]
          by_cases hi2 : i < acc.length
          · rw [if_neg (by omega)]
            rw [hX]
            rw [if_pos (by omega)]
            rw [List.getElem?_append, if_pos hi2]
            have := hslot i hi2
            simp only [data_start] at this
            rw [show s.m_offset + (s.m_offset / 2 + i - s.m_offset / 2) =
                s.m_offset + i by omega]
            exact this
          · have hieq : i = acc.length := by omega
            subst hieq
            rw [if_pos (by omega), List.getElem?_concat_length]
      · have h0' : s.cap - (s.m_offset + s.m_size) ≠ 0 := h0
        simp only [push_back, if_neg hc, if_neg h0, data_start, data_end,
          Except.ok.injEq] at hp
        subst hp
        refine ⟨⟨?_, ?_, ?_, ?_⟩, by simp [add]⟩
        · simp [add, hsz]
        · simp only [add]
          omega
        · intro _
          simp only [add]
          omega
        · intro i hi
          simp only [List.length_append, List.length_cons, List.length_nil] at hi
          simp only [add, data_start, data_end, upd]
          by_cases hi2 : i < acc.length
          · rw [if_neg (by omega), List.getElem?_append, if_pos hi2]
            have := hslot i hi2
            simpa [data_start] using this
          · have hieq : i = acc.length := by omega
            subst hieq
            rw [if_pos (by omega), List.getElem?_concat_length]

/-- Chaining `push_back_step` over a whole list of pushed values. -/
lemma pushAll_back_inv (loc : Loc) (vs acc : List α) (s s1 : SeqState α)
    (hInv : PushedInv loc acc s)
    (h : pushAll (push_back loc) s vs = .ok s1) :
    PushedInv loc (acc ++ vs) s1 := by
  induction vs generalizing acc s with
  | nil =>
      simp only [pushAll, Except.ok.injEq] at h
      subst h
      simpa using hInv
  | cons v vs ih =>
      simp only [pushAll] at h
      cases hp : push_back loc s v with
      | error err => rw [hp] at h; simp at h
      | ok s2 =>
          rw [hp] at h
          simp only at h
          have hstep := push_back_step loc acc s s2 v hInv hp
          have := ih (acc ++ [v]) s2 hstep.1 h
          simpa [List.append_assoc] using this

/-- The iteration window of an invariant-satisfying state is exactly the
pushed values, in order. -/
lemma window_of_inv (loc : Loc) (vs : List α) (s : SeqState α)
    (hInv : PushedInv loc vs s) : window loc s = vs.map some := by
  obtain ⟨hsz, hle, hmid, hslot⟩ := hInv
  have hlen : data_end loc s - data_start loc s = s.m_size := by
    cases loc <;> simp only [data_start, data_end] <;> omega
  unfold window
  rw [hlen, hsz]
  apply List.ext_getElem?
  intro n
  rw [List.getElem?_map, List.getElem?_map]
  by_cases hn : n < vs.length
  · rw [List.getElem?_range hn, List.getElem?_eq_getElem hn]
    simp only [Option.map_some']
    rw [hslot n hn, List.getElem?_eq_getElem hn]
  · have h1 : (List.range vs.length)[n]? = none := by
      rw [List.getElem?_eq_none]
      simpa using by omega
    have h2 : vs[n]? = none := by
      rw [List.getElem?_eq_none]
      omega
    rw [h1, h2]
    rfl

/-- As long as the pushes fit under the capacity, a chain of pushes (any
variant, either operation) succeeds and adds one element per push. -/
lemma pushAll_ok (op : Op) (loc : Loc) (vs : List α) (s : SeqState α)
    (h : s.m_size + vs.length ≤ s.cap) :
    ∃ s1, pushAll (push op loc) s vs = .ok s1 ∧
      s1.m_size = s.m_size + vs.length ∧ s1.cap = s.cap := by
  induction vs generalizing s with
  | nil => exact ⟨s, rfl, by simp, rfl⟩
  | cons v vs ih =>
      have hne : s.m_size ≠ s.cap := by
        simp only [List.length_cons] at h
        omega
      obtain ⟨s2, hp, h1, h2, -, -⟩ := push_not_full op loc s v hne
      obtain ⟨s1, hall, h3, h4⟩ := ih s2 (by
        simp only [List.length_cons] at h
        omega)
      refine ⟨s1, ?_, ?_, ?_⟩
      · simp only [pushAll, hp]
        exact hall
      · simp only [List.length_cons]
        omega
      · omega

/-- C1: for every fixed-capacity configuration (every location variant,
either push operation) with capacity `c`, pushing any `c` values succeeds
and yields `size() = c`; a `(c+1)`-th push of any value then throws
`bad_alloc`, and the state at the throw is the pre-call state (same slots,
same size, same offset — only the ghost log differs), i.e. the failed call
leaves the container exactly as it was (strong guarantee). -/
theorem claim1_fixed_capacity_overflow (op : Op) (loc : Loc) (c : Nat)
    (vs : List α) (hlen : vs.length = c) :
    ∃ s, pushAll (push op loc) (initState α c) vs = .ok s ∧ s.m_size = c ∧
      ∀ v, push op loc s v =
        .error (.badAlloc, { s with log := s.log ++ [Event.realloc] }) := by
  obtain ⟨s, hall, h1, h2⟩ := pushAll_ok op loc vs (initState α c)
    (by simp [initState, hlen])
  have hcap : s.cap = c := by simpa [initState] using h2
  have hsz : s.m_size = c := by simpa [initState, hlen] using h1
  exact ⟨s, hall, hsz, fun v => push_full op loc s v (by omega)⟩

/-- Witness for C1 at a concrete input: capacity 2, pushing `[5, 7]`
through `BACK::push_front`. -/
theorem claim1_witness :
    ∃ s, pushAll (push Op.front Loc.BACK) (initState Nat 2) [5, 7] = .ok s ∧
      s.m_size = 2 ∧
      ∀ v, push Op.front Loc.BACK s v =
        .error (.badAlloc, { s with log := s.log ++ [Event.realloc] }) :=
  claim1_fixed_capacity_overflow Op.front Loc.BACK 2 [5, 7] rfl

/-- C4: for every location variant, pushing `v1..vn` via `push_back` from
an empty container and then iterating from `begin()` to `end()` yields
`v1..vn` in that order. -/
theorem claim4_push_back_round_trip (loc : Loc) (c : Nat) (vs : List α)
    (s : SeqState α)
    (h : pushAll (push_back loc) (initState α c) vs = .ok s) :
    window loc s = vs.map some := by
  have hInit : PushedInv loc [] (initState α c) := by
    refine ⟨rfl, by simp [initState], ?_, ?_⟩
    · intro _
      simp only [initState]
      omega
    · intro i hi
      simp at hi
  have hAll := pushAll_back_inv loc vs [] (initState α c) s hInit h
  exact window_of_inv loc vs s (by simpa using hAll)

/-- Witness for C4 at a concrete input: `MIDDLE`, capacity 4,
pushing `[1, 2, 3]`. -/
theorem claim4_witness :
    ∃ s, pushAll (push_back Loc.MIDDLE) (initState Nat 4) [1, 2, 3] = .ok s ∧
      window Loc.MIDDLE s = [1, 2, 3].map some := by
  refine ⟨_, rfl, claim4_push_back_round_trip Loc.MIDDLE 4 [1, 2, 3] _ rfl⟩

/-- C5: in every `MIDDLE` state reachable by successful pushes from a
default-constructed container, `0 ≤ offset` and
`offset + size() ≤ capacity()` hold (`m_offset` is unsigned, so the first
bound is inherent). -/
theorem claim5_middle_offset_invariant (s : SeqState α)
    (h : Reaches Loc.MIDDLE s) :
    0 ≤ s.m_offset ∧ s.m_offset + s.m_size ≤ s.cap :=
  ⟨Nat.zero_le _, reaches_mid_inv s h⟩

/-- Witness for C5 at a concrete reachable state (freshly constructed,
capacity 6). -/
theorem claim5_witness :
    0 ≤ (initState Nat 6).m_offset ∧
      (initState Nat 6).m_offset + (initState Nat 6).m_size ≤
        (initState Nat 6).cap :=
  claim5_middle_offset_invariant _ (Reaches.init 6)

/-- C7: in every push of every variant, `reallocate()` is invoked exactly
when `size() == capacity()` held at the start of the call, and when it is
invoked it is the first and only primitive call (it throws before any
shift or recentering): the unconditional failure is reached only on
genuine exhaustion, and then the call fails with `bad_alloc` leaving the
container fields untouched. -/
theorem claim7_reallocate_only_when_full (op : Op) (loc : Loc)
    (s : SeqState α) (v : α) :
    (Event.realloc ∈ newLog s (push op loc s v) ↔ s.m_size = s.cap) ∧
    (s.m_size = s.cap →
      newLog s (push op loc s v) = [Event.realloc] ∧
      push op loc s v =
        .error (.badAlloc, { s with log := s.log ++ [Event.realloc] })) := by
  by_cases hc : s.m_size = s.cap
  · have h2 := push_full op loc s v hc
    rw [h2]
    refine ⟨?_, fun _ => ⟨?_, rfl⟩⟩
    · simp [newLog, List.drop_left, hc]
    · simp [newLog, List.drop_left]
  · obtain ⟨s1, hp, -, -, -, hnr⟩ := push_not_full op loc s v hc
    rw [hp] at hnr ⊢
    exact ⟨⟨fun hm => absurd hm hnr, fun hcap => absurd hcap hc⟩,
      fun hcap => absurd hcap hc⟩

/-- Witness for C7 at a concrete input: `MIDDLE::push_back` on a fresh
capacity-3 container. -/
theorem claim7_witness :
    (Event.realloc ∈ newLog (initState Nat 3)
        (push Op.back Loc.MIDDLE (initState Nat 3) 1) ↔
      (initState Nat 3).m_size = (initState Nat 3).cap) ∧
    ((initState Nat 3).m_size = (initState Nat 3).cap →
      newLog (initState Nat 3) (push Op.back Loc.MIDDLE (initState Nat 3) 1) =
        [Event.realloc] ∧
      push Op.back Loc.MIDDLE (initState Nat 3) 1 =
        .error (.badAlloc, { initState Nat 3 with
          log := (initState Nat 3).log ++ [Event.realloc] })) :=
  claim7_reallocate_only_when_full Op.back Loc.MIDDLE (initState Nat 3) 1

/-- C9: in every reachable state of every variant,
`end() - begin() = size()`, and `begin() == end()` exactly when the
container is empty (in particular for a default-constructed container,
which is reachable by zero pushes). -/
theorem claim9_iterator_distance (loc : Loc) (s : SeqState α)
    (h : Reaches loc s) :
    data_end loc s - data_start loc s = s.m_size ∧
    (data_start loc s = data_end loc s ↔ s.m_size = 0) := by
  have hle := reaches_size_le_cap loc s h
  cases loc <;> simp only [data_start, data_end] <;>
    exact ⟨by omega, by omega⟩

/-- Witness for C9 at a concrete reachable state (fresh `BACK` container
of capacity 5). -/
theorem claim9_witness :
    data_end Loc.BACK (initState Nat 5) - data_start Loc.BACK (initState Nat 5) =
      (initState Nat 5).m_size ∧
    (data_start Loc.BACK (initState Nat 5) = data_end Loc.BACK (initState Nat 5) ↔
      (initState Nat 5).m_size = 0) :=
  claim9_iterator_distance Loc.BACK _ (Reaches.init 5)

/-- C10: a push (either operation, every variant) that returns normally
increments `size()` by exactly one and performs exactly one element
construction for the pushed value, namely the single `add` call carrying
that value.  (`e` is taken by const reference and `add` placement-copy-
constructs it; the model's pushes never modify the argument.) -/
theorem claim10_push_single_add (op : Op) (loc : Loc) (s : SeqState α)
    (v : α) (h : s.m_size < s.cap) :
    ∃ s1, push op loc s v = .ok s1 ∧ s1.m_size = s.m_size + 1 ∧
      (newLog s (push op loc s v)).filter isAdd = [Event.added v] := by
  obtain ⟨s1, hp, h1, -, h3, -⟩ := push_not_full op loc s v (by omega)
  exact ⟨s1, hp, h1, h3⟩

/-- Witness for C10 at a concrete input: `BACK::push_front` of 9 on a
fresh capacity-3 container. -/
theorem claim10_witness :
    ∃ s1, push Op.front Loc.BACK (initState Nat 3) 9 = .ok s1 ∧
      s1.m_size = (initState Nat 3).m_size + 1 ∧
      (newLog (initState Nat 3)
          (push Op.front Loc.BACK (initState Nat 3) 9)).filter isAdd =
        [Event.added 9] :=
  claim10_push_single_add Op.front Loc.BACK (initState Nat 3) 9 (by decide)

/-- C2 fails on the code: on a `FRONT`, capacity-4 container,
`push_front(1); push_front(2)` succeeds but iterating reads
`[some 2, none]` — the second visited slot is uninitialized — instead of
the claimed `[some 2, some 1]`.  Cause: the `dist > 0` loop of `shift`
writes its first element at `end + dist` (the `--dst` runs only after the
loop body), so the old element `1` lands two slots up (slot 2, outside the
live window) and slot 1 inside the window is left destroyed. -/
theorem claim2_front_push_front_corrupts :
    (pushAll (push_front Loc.FRONT) (initState Nat 4) [1, 2]).toOption.map
        (window Loc.FRONT) = some [some 2, none] ∧
    (pushAll (push_front Loc.FRONT) (initState Nat 4) [1, 2]).toOption.map
        (window Loc.FRONT) ≠ some ([2, 1].map some) := by
  decide

/-- C3 fails on the code: after the same two `FRONT` push_fronts the live
window is `[0, 2)` (`data_start = 0`, `data_end = 2`), yet slot 1 inside
it holds no live element while slot 2 outside it holds the live element
`1` — the contiguity invariant is violated in a reachable state. -/
theorem claim3_contiguity_violated :
    (pushAll (push_front Loc.FRONT) (initState Nat 4) [1, 2]).toOption.map
        (fun s => (data_start Loc.FRONT s, data_end Loc.FRONT s,
          s.m_storage 1, s.m_storage 2)) = some (0, 2, none, some 1) := by
  decide

/-- C8 fails on the code: destroying the container in the corrupted state
above runs the destructor on slots `[0, 1)` ∪ `{1}` = `[0, 2)`, i.e. on
uninitialized slot 1, and never destroys the live element sitting in
slot 2. -/
theorem claim8_destructor_mismatch :
    (pushAll (push_front Loc.FRONT) (initState Nat 4) [1, 2]).toOption.map
        (fun s => (destroyedSlots Loc.FRONT s, s.m_storage 1, s.m_storage 2)) =
      some ([0, 1], none, some 1) := by
  decide

/-- C6: the concrete `BACK`, local, fixed-capacity-10 integer scenario:
five `push_front`s yield iteration order `5,4,3,2,1` with `size() = 5`;
ten `push_front`s all succeed (yielding `10,...,1`, `size() = 10`); an
eleventh `push_front` throws `bad_alloc` and the state at the throw still
holds the same ten elements in the same order with `size() = 10`. -/
theorem claim6_back_scenario :
    (pushAll (push_front Loc.BACK) (initState Nat 10)
        [1, 2, 3, 4, 5]).toOption.map (fun s => (window Loc.BACK s, s.m_size)) =
      some ([some 5, some 4, some 3, some 2, some 1], 5) ∧
    (pushAll (push_front Loc.BACK) (initState Nat 10)
        [1, 2, 3, 4, 5, 6, 7, 8, 9, 10]).toOption.map
        (fun s => (window Loc.BACK s, s.m_size)) =
      some ([some 10, some 9, some 8, some 7, some 6,
             some 5, some 4, some 3, some 2, some 1], 10) ∧
    failureView Loc.BACK (pushAll (push_front Loc.BACK) (initState Nat 10)
        [1, 2, 3, 4, 5, 6, 7, 8, 9, 10, 11]) =
      some (.badAlloc, [some 10, some 9, some 8, some 7, some 6,
             some 5, some 4, some 3, some 2, some 1], 10) := by
  refine ⟨by decide, by decide, by decide⟩
